import Mathlib

/-!
Shallow embedding of the dental mini-app backend (`src/main.py`) and proofs
about its validation helpers, upsert operations and filtered listing.

Embedding conventions:
* Python strings are Lean `String`s (lists of characters); `str.strip()` is
  modelled over the ASCII whitespace characters, and the regex class `\d` is
  modelled as ASCII digits (`Char.isDigit`).
* Python `None`-able values are `Option`s; Python truthiness of an optional
  int / optional string is made explicit (`0`, `""` and `None` are falsy).
* Functions that raise `ValueError` are modelled as `Option`-returning
  functions (`none` = raise); endpoint-level failures return an explicit
  error enumeration.
* The SQLite store is modelled as a list of records in insertion (rowid)
  order together with the autoincrement counter; `datetime.utcnow()` is an
  explicit `now : Nat` parameter.
-/

namespace DentalApp

/-- ASCII whitespace stripped by `str.strip()` (space, tab, newline,
carriage return, vertical tab, form feed). -/
def isPySpace (c : Char) : Bool :=
  c == ' ' || c == '\t' || c == '\n' || c == '\r' || c == '\x0b' || c == '\x0c'

/-- Strip leading and trailing whitespace from a character list. -/
def stripChars (l : List Char) : List Char :=
  ((l.dropWhile isPySpace).reverse.dropWhile isPySpace).reverse

/-- `str.strip()`. -/
def pyStrip (s : String) : String :=
  String.mk (stripChars s.data)

/-- Python truthiness of an `Optional[int]`: `None` and `0` are falsy. -/
def truthyI : Option Int → Bool
  | none => false
  | some n => n != 0

/-- Python truthiness of an `Optional[str]`: `None` and `""` are falsy. -/
def truthyS : Option String → Bool
  | none => false
  | some s => s != ""

/-- `x or y` on optional ints (keeps `y` when `x` is falsy). -/
def pyOrI (x y : Option Int) : Option Int :=
  if truthyI x then x else y

/-- `x or y` on optional strings (keeps `y` when `x` is falsy). -/
def pyOrS (x y : Option String) : Option String :=
  if truthyS x then x else y

/-- `(s or "").strip() or None`: strip, and turn the empty string into `None`. -/
def strippedOrNone (o : Option String) : Option String :=
  let s := pyStrip (o.getD "")
  if s == "" then none else some s

/-- `normalize_phone` (src/main.py:30-36): strip, delete every character
that is neither a digit nor `'+'`, count the remaining digits, and fail
(`ValueError`, i.e. `none`) when fewer than 10 digits remain. -/
def normalize_phone (phone : String) : Option String :=
  let p := pyStrip phone
  let p := String.mk (p.data.filter (fun c => c.isDigit || c == '+'))
  let digits := p.data.filter Char.isDigit
  if digits.length < 10 then none else some p

/-- `ALLOWED_CITIES` (src/main.py:19). -/
def ALLOWED_CITIES : List String := ["Москва", "Санкт-Петербург"]

/-- `validate_city` (src/main.py:39-43). -/
def validate_city (city : String) : Option String :=
  let c := pyStrip city
  if ALLOWED_CITIES.contains c then some c else none

/-- `re.fullmatch(r"\d\x7b4\x7d-\d\x7b2\x7d-\d\x7b2\x7d", s)` as a Boolean test. -/
def matchDate (s : String) : Bool :=
  match s.data with
  | [y1, y2, y3, y4, h1, m1, m2, h2, d1, d2] =>
    y1.isDigit && y2.isDigit && y3.isDigit && y4.isDigit &&
    h1 == '-' && m1.isDigit && m2.isDigit && h2 == '-' && d1.isDigit && d2.isDigit
  | _ => false

/-- Lexicographic comparison of character lists by code point (Python's
`<` on `str`). -/
def charListLt : List Char → List Char → Bool
  | [], [] => false
  | [], _ :: _ => true
  | _ :: _, [] => false
  | c :: cs, d :: ds =>
    if c.toNat < d.toNat then true
    else if d.toNat < c.toNat then false
    else charListLt cs ds

/-- Python's `<` on strings as an executable Boolean. -/
def strLt (a b : String) : Bool := charListLt a.data b.data

/-- Insert a string into a strictly ascending list, dropping duplicates;
folding this over a list produces exactly Python's `sorted(set(...))`. -/
def insertStr (x : String) : List String → List String
  | [] => [x]
  | y :: ys =>
    if strLt x y then x :: y :: ys
    else if x == y then y :: ys
    else y :: insertStr x ys

/-- Python's `sorted(set(l))` for a list of strings. -/
def sortedDedup (l : List String) : List String :=
  l.foldl (fun acc d => insertStr d acc) []

/-- `validate_dates` (src/main.py:46-54): each entry is stripped, must
match the `YYYY-MM-DD` pattern, and the result is `sorted(set(...))` of
the stripped entries. -/
def validate_dates (dates : Option (List String)) : Option (List String) :=
  let ds := (dates.getD []).map pyStrip
  if ds.all matchDate then some (sortedDedup ds) else none

/-- Numeric value of an ASCII digit. -/
def digitVal (c : Char) : Nat := c.toNat - 48

/-- Digit run with Python's underscore rule (an underscore must sit between
two digits), accumulating the value; the empty rest is accepted. -/
def pyDigits (acc : Nat) : List Char → Option Nat
  | [] => some acc
  | c :: cs =>
    if c.isDigit then pyDigits (10 * acc + digitVal c) cs
    else if c == '_' then
      match cs with
      | d :: ds => if d.isDigit then pyDigits (10 * acc + digitVal d) ds else none
      | [] => none
    else none

/-- A nonempty digit run (first character must be a digit). -/
def pyIntDigits : List Char → Option Nat
  | [] => none
  | c :: cs => if c.isDigit then pyDigits (digitVal c) cs else none

/-- Optionally signed digit run. -/
def pySignedDigits : List Char → Option Int
  | '-' :: rest => (pyIntDigits rest).map (fun n => -(n : Int))
  | '+' :: rest => (pyIntDigits rest).map (fun n => (n : Int))
  | l => (pyIntDigits l).map (fun n => (n : Int))

/-- Python `int(s)` on a string: surrounding whitespace is tolerated, an
optional sign, then digits (with underscores between digits). -/
def pyInt (s : String) : Option Int :=
  pySignedDigits (stripChars s.data)

/-- `exp_to_int` (src/main.py:57-63): strip, `s.replace("+", "")` (which
removes EVERY `'+'`, wherever it occurs), then `int(s)` with a default of
`0` on failure. -/
def exp_to_int (exp_str : String) : Int :=
  let s := pyStrip exp_str
  let s := String.mk (s.data.filter (fun c => c != '+'))
  (pyInt s).getD 0

end DentalApp

namespace DentalApp

/-- Digit run that also counts the digits consumed (used for the fractional
part of a float literal). -/
def pyDigitsCnt (acc cnt : Nat) : List Char → Option (Nat × Nat)
  | [] => some (acc, cnt)
  | c :: cs =>
    if c.isDigit then pyDigitsCnt (10 * acc + digitVal c) (cnt + 1) cs
    else if c == '_' then
      match cs with
      | d :: ds => if d.isDigit then pyDigitsCnt (10 * acc + digitVal d) (cnt + 1) ds else none
      | [] => none
    else none

/-- A possibly empty digit part of a float literal (may not start with an
underscore). -/
def pyFloatPart : List Char → Option (Nat × Nat)
  | [] => some (0, 0)
  | c :: cs => if c.isDigit then pyDigitsCnt 0 0 (c :: cs) else none

/-- Exponent of a float literal: optional sign then a nonempty digit run. -/
def pyFloatExp : List Char → Option Int
  | '-' :: rest => (pyIntDigits rest).map (fun n => -(n : Int))
  | '+' :: rest => (pyIntDigits rest).map (fun n => (n : Int))
  | l => (pyIntDigits l).map (fun n => (n : Int))

/-- `int(float(s))` for a nonempty stripped string, modelled with exact
decimal arithmetic truncated toward zero.  Binary floating-point rounding
and overflow to infinity are not modelled; `inf` / `nan` literals yield
`none` because `int()` raises on them (caught by the caller). -/
def pyFloatTrunc (s : String) : Option Int :=
  let l := s.data
  let (neg, body) :=
    match l with
    | '-' :: rest => (true, rest)
    | '+' :: rest => (false, rest)
    | _ => (false, l)
  let lower := body.map Char.toLower
  if lower = "inf".data || lower = "infinity".data || lower = "nan".data then none
  else
    let (mant, expPart) := body.span (fun c => !(c == 'e' || c == 'E'))
    let expVal : Option Int :=
      match expPart with
      | _ :: rest => pyFloatExp rest
      | [] => some 0
    let (ip, fpPart) := mant.span (fun c => !(c == '.'))
    let fp := match fpPart with
      | _ :: rest => rest
      | [] => []
    match pyFloatPart ip, pyFloatPart fp, expVal with
    | some (iv, ic), some (fv, fc), some e =>
      if ic + fc == 0 then none
      else
        let num := iv * 10 ^ fc + fv
        let num := if 0 ≤ e then num * 10 ^ e.toNat else num
        let den := (10 : Nat) ^ fc * (if 0 ≤ e then 1 else 10 ^ (-e).toNat)
        let t : Nat := num / den
        some (if neg then -(t : Int) else (t : Int))
    | _, _, _ => none

/-- `rate_to_int` (src/main.py:66-75): `None` stays `None`, the string is
stripped, the empty string gives `None`, otherwise `int(float(s))` with
`None` on any parse failure. -/
def rate_to_int (rate_str : Option String) : Option Int :=
  match rate_str with
  | none => none
  | some r =>
    let s := pyStrip r
    if s == "" then none else pyFloatTrunc s

/-- A row of the `assistants` table (src/main.py:79-97);
`availability_dates` is stored as a JSON array of strings, modelled
directly as the list it decodes to. -/
structure Assistant where
  id : Nat
  tg_user_id : Option Int
  tg_username : Option String
  name : String
  city : String
  phone : String
  exp : String
  rate : Option String
  about : Option String
  availability_dates : List String
  rating : Int
  created_at : Nat
deriving DecidableEq, Repr

/-- A row of the `employers` table (src/main.py:100-113). -/
structure Employer where
  id : Nat
  tg_user_id : Option Int
  tg_username : Option String
  clinic : String
  city : String
  phone : String
  about : Option String
  rating : Int
  created_at : Nat
deriving DecidableEq, Repr

/-- Request body `AssistantIn` (src/main.py:151-162). -/
structure AssistantIn where
  tg_user_id : Option Int
  tg_username : Option String
  name : String
  city : String
  phone : String
  exp : String
  rate : Option String
  about : Option String
  availability_dates : Option (List String)
deriving Repr

/-- Request body `EmployerIn` (src/main.py:165-172). -/
structure EmployerIn where
  tg_user_id : Option Int
  tg_username : Option String
  clinic : String
  city : String
  phone : String
  about : Option String
deriving Repr

/-- The assistants table: rows in insertion (rowid) order plus the
autoincrement counter. -/
structure AStore where
  records : List Assistant
  nextId : Nat
deriving Repr

/-- The employers table. -/
structure EStore where
  records : List Employer
  nextId : Nat
deriving Repr

/-- The HTTP 400 errors the upsert endpoints can raise (src/main.py:181,186,191). -/
inductive UpsertError where
  | invalidPhone
  | invalidCity
  | invalidDate
deriving DecidableEq, Repr

/-- Replace the first element satisfying `pred` by `f` of it (SQLAlchemy
`query.filter(...).first()` followed by in-place mutation and commit). -/
def updateFirst (pred : α → Bool) (f : α → α) : List α → List α
  | [] => []
  | x :: xs => if pred x then f x :: xs else x :: updateFirst pred f xs

/-- Overwrite the fields of a found assistant row with the freshly
validated payload (src/main.py:216-225); `id`, `rating` and `created_at`
are not assigned. -/
def updateAssistant (obj : Assistant) (p : AssistantIn)
    (phone city : String) (dates : List String) : Assistant :=
  { obj with
    tg_user_id := pyOrI p.tg_user_id obj.tg_user_id
    tg_username := pyOrS p.tg_username obj.tg_username
    name := pyStrip p.name
    city := city
    phone := phone
    exp := pyStrip p.exp
    rate := strippedOrNone p.rate
    about := strippedOrNone p.about
    availability_dates := dates }

/-- A freshly created assistant row (src/main.py:201-215): surrogate id
from the autoincrement counter, `rating = 5`, `created_at = now`. -/
def newAssistant (p : AssistantIn) (phone city : String) (dates : List String)
    (id now : Nat) : Assistant :=
  { id := id
    tg_user_id := p.tg_user_id
    tg_username := p.tg_username
    name := pyStrip p.name
    city := city
    phone := phone
    exp := pyStrip p.exp
    rate := strippedOrNone p.rate
    about := strippedOrNone p.about
    availability_dates := dates
    rating := 5
    created_at := now }

/-- Identity lookup of `upsert_assistant` (src/main.py:195-199): when
`tg_user_id` is truthy, filter on it; only when that finds nothing and
`tg_username` is truthy, filter on the username. -/
def lookupAssistant (recs : List Assistant) (p : AssistantIn) : Option Assistant :=
  match (if truthyI p.tg_user_id
         then recs.find? (fun a => a.tg_user_id == p.tg_user_id)
         else none) with
  | some a => some a
  | none =>
    if truthyS p.tg_username
    then recs.find? (fun a => a.tg_username == p.tg_username)
    else none

/-- `upsert_assistant` (src/main.py:176-231): validate phone, city and
dates (failing fast, before touching the store), resolve the identity,
then update the found row in place or append a fresh row.  Returns the
new store and the stored representation of the row. -/
def upsert_assistant (st : AStore) (p : AssistantIn) (now : Nat) :
    Except UpsertError (AStore × Assistant) :=
  match normalize_phone p.phone with
  | none => Except.error UpsertError.invalidPhone
  | some phone =>
    match validate_city p.city with
    | none => Except.error UpsertError.invalidCity
    | some city =>
      match validate_dates p.availability_dates with
      | none => Except.error UpsertError.invalidDate
      | some dates =>
        match lookupAssistant st.records p with
        | some obj =>
          let obj' := updateAssistant obj p phone city dates
          let pred : Assistant → Bool :=
            if truthyI p.tg_user_id ∧
               (st.records.find? (fun a => a.tg_user_id == p.tg_user_id)).isSome
            then (fun a => a.tg_user_id == p.tg_user_id)
            else (fun a => a.tg_username == p.tg_username)
          Except.ok ({ st with records := updateFirst pred (fun _ => obj') st.records }, obj')
        | none =>
          let obj := newAssistant p phone city dates st.nextId now
          Except.ok ({ records := st.records ++ [obj], nextId := st.nextId + 1 }, obj)

/-- The store state after a call to `upsert_assistant` (an exception
leaves the database untouched). -/
def upsertAssistantState (st : AStore) (p : AssistantIn) (now : Nat) : AStore :=
  match upsert_assistant st p now with
  | Except.ok (st', _) => st'
  | Except.error _ => st

/-- Overwrite the fields of a found employer row (src/main.py:329-337). -/
def updateEmployer (obj : Employer) (p : EmployerIn) (phone city : String) : Employer :=
  { obj with
    tg_user_id := pyOrI p.tg_user_id obj.tg_user_id
    tg_username := pyOrS p.tg_username obj.tg_username
    clinic := pyStrip p.clinic
    city := city
    phone := phone
    about := strippedOrNone p.about }

/-- A freshly created employer row (src/main.py:317-328). -/
def newEmployer (p : EmployerIn) (phone city : String) (id now : Nat) : Employer :=
  { id := id
    tg_user_id := p.tg_user_id
    tg_username := p.tg_username
    clinic := pyStrip p.clinic
    city := city
    phone := phone
    about := strippedOrNone p.about
    rating := 5
    created_at := now }

/-- Identity lookup of `upsert_employer` (src/main.py:311-315). -/
def lookupEmployer (recs : List Employer) (p : EmployerIn) : Option Employer :=
  match (if truthyI p.tg_user_id
         then recs.find? (fun e => e.tg_user_id == p.tg_user_id)
         else none) with
  | some e => some e
  | none =>
    if truthyS p.tg_username
    then recs.find? (fun e => e.tg_username == p.tg_username)
    else none

/-- `upsert_employer` (src/main.py:297-341): validate phone and city
before touching the store, resolve the identity, then update in place or
append a fresh row. -/
def upsert_employer (st : EStore) (p : EmployerIn) (now : Nat) :
    Except UpsertError (EStore × Employer) :=
  match normalize_phone p.phone with
  | none => Except.error UpsertError.invalidPhone
  | some phone =>
    match validate_city p.city with
    | none => Except.error UpsertError.invalidCity
    | some city =>
      match lookupEmployer st.records p with
      | some obj =>
        let obj' := updateEmployer obj p phone city
        let pred : Employer → Bool :=
          if truthyI p.tg_user_id ∧
             (st.records.find? (fun e => e.tg_user_id == p.tg_user_id)).isSome
          then (fun e => e.tg_user_id == p.tg_user_id)
          else (fun e => e.tg_username == p.tg_username)
        Except.ok ({ st with records := updateFirst pred (fun _ => obj') st.records }, obj')
      | none =>
        let obj := newEmployer p phone city st.nextId now
        Except.ok ({ records := st.records ++ [obj], nextId := st.nextId + 1 }, obj)

/-- The store state after a call to `upsert_employer`. -/
def upsertEmployerState (st : EStore) (p : EmployerIn) (now : Nat) : EStore :=
  match upsert_employer st p now with
  | Except.ok (st', _) => st'
  | Except.error _ => st

/-- `get_my_assistant` (src/main.py:234-248): lookup by `tg_user_id` only
when it is truthy; fall back to `tg_username` only when it is truthy. -/
def get_my_assistant (recs : List Assistant)
    (tg_user_id : Option Int) (tg_username : Option String) : Option Assistant :=
  match (if truthyI tg_user_id
         then recs.find? (fun a => a.tg_user_id == tg_user_id)
         else none) with
  | some a => some a
  | none =>
    if truthyS tg_username
    then recs.find? (fun a => a.tg_username == tg_username)
    else none

/-- The `ORDER BY rating DESC, created_at DESC` relation of the listing
query (src/main.py:267). -/
def listLE (a b : Assistant) : Prop :=
  b.rating < a.rating ∨ (b.rating = a.rating ∧ b.created_at ≤ a.created_at)

instance : DecidableRel listLE := fun a b => by
  unfold listLE; infer_instance

instance : IsTotal Assistant listLE :=
  ⟨fun a b => by
    unfold listLE
    rcases lt_trichotomy a.rating b.rating with h | h | h
    · exact Or.inr (Or.inl h)
    · rcases le_total a.created_at b.created_at with h2 | h2
      · exact Or.inr (Or.inr ⟨h, h2⟩)
      · exact Or.inl (Or.inr ⟨h.symm, h2⟩)
    · exact Or.inl (Or.inl h)⟩

instance : IsTrans Assistant listLE :=
  ⟨fun a b c hab hbc => by
    unfold listLE at *
    rcases hab with h1 | ⟨h1, h1'⟩ <;> rcases hbc with h2 | ⟨h2, h2'⟩
    · exact Or.inl (h2.trans h1)
    · exact Or.inl (h2 ▸ h1)
    · exact Or.inl (h1 ▸ h2)
    · exact Or.inr ⟨h2.trans h1, h2'.trans h1'⟩⟩

/-- The sorted base window of the listing query. -/
def sortAssistants (l : List Assistant) : List Assistant :=
  l.insertionSort listLE

/-- The `exp_min` / `rate_max` filtering steps of `list_assistants`
(src/main.py:276-289); both are applied on an `is not None` test. -/
def applyExpRate (items : List Assistant) (exp_min rate_max : Option Int) :
    List Assistant :=
  let it1 := match exp_min with
    | some e => items.filter (fun a => e ≤ exp_to_int a.exp)
    | none => items
  match rate_max with
  | some rm =>
    it1.filter (fun a =>
      match rate_to_int a.rate with
      | some r => r ≤ rm
      | none => false)
  | none => it1

/-- The part of `list_assistants` after the city filter: sort, cap at 500
rows, then apply the date filter (returning `[]` outright on a malformed
date) and the `exp_min` / `rate_max` filters. -/
def listAfterCity (base : List Assistant) (date : Option String)
    (exp_min rate_max : Option Int) : List Assistant :=
  let items := (sortAssistants base).take 500
  if truthyS date then
    let d := pyStrip (date.getD "")
    if matchDate d then
      applyExpRate (items.filter (fun a => a.availability_dates.contains d)) exp_min rate_max
    else []
  else applyExpRate items exp_min rate_max

/-- `list_assistants` (src/main.py:251-293): optional truthy city filter
(unknown city short-circuits to `[]`), then sort / cap / filter. -/
def list_assistants (recs : List Assistant) (city date : Option String)
    (exp_min rate_max : Option Int) : List Assistant :=
  if truthyS city then
    let c := pyStrip (city.getD "")
    if ALLOWED_CITIES.contains c then
      listAfterCity (recs.filter (fun a => a.city == c)) date exp_min rate_max
    else []
  else listAfterCity recs date exp_min rate_max

/-- The shape the spec ascribes to a normalized phone: only digits, with
at most one `'+'`, which must be leading.  (Used to compare the spec's
words with what the code actually returns.) -/
def specPhoneShape (t : String) : Bool :=
  match t.data with
  | '+' :: rest => rest.all Char.isDigit
  | l => l.all Char.isDigit

/-- Modelled from the spec: the experience coercion as the spec words it —
strip a single *trailing* `'+'` marker if present, then parse the
remainder as an integer, defaulting to `0` on failure.  (To be compared
with `exp_to_int`, which removes every `'+'`.) -/
def exp_to_int_spec_version (s : String) : Int :=
  let t := pyStrip s
  let t := match t.data.getLast? with
    | some '+' => String.mk t.data.dropLast
    | _ => t
  (pyInt t).getD 0

/-- A concrete assistant row with a given id, rate and rating (all
ratings distinct so that the listing order is forced). -/
def rateAsst (i : Nat) (rt : Option String) : Assistant :=
  { id := i
    tg_user_id := some (100 + (i : Int))
    tg_username := none
    name := "A"
    city := "Москва"
    phone := "+79991112233"
    exp := "1"
    rate := rt
    about := none
    availability_dates := []
    rating := (3 : Int) - (i : Int)
    created_at := 0 }

/-- A concrete assistant row used to build an over-the-cap store; the
rating equals the index, so all ratings are pairwise distinct. -/
def windowAssistant (i : Nat) : Assistant :=
  { id := i
    tg_user_id := none
    tg_username := none
    name := "A"
    city := "Москва"
    phone := "+79991112233"
    exp := "0"
    rate := none
    about := none
    availability_dates := []
    rating := (i : Int)
    created_at := 0 }

/-- 501 assistants (one more than the cap) with pairwise distinct ratings. -/
def windowStore : List Assistant := (List.range 501).map windowAssistant

/-- A concrete valid assistant payload (the spec's example scenario). -/
def wAssistantIn : AssistantIn :=
  { tg_user_id := some 42
    tg_username := none
    name := "Alina"
    city := "Москва"
    phone := "+7 999 111 22 33"
    exp := "3"
    rate := some "500"
    about := none
    availability_dates := some ["2024-05-02", "2024-05-01"] }

/-- The stored row the example scenario creates. -/
def storedMoscow : Assistant :=
  { id := 1
    tg_user_id := some 42
    tg_username := none
    name := "Alina"
    city := "Москва"
    phone := "+79991112233"
    exp := "3"
    rate := some "500"
    about := none
    availability_dates := ["2024-05-01", "2024-05-02"]
    rating := 5
    created_at := 100 }

/-- A second payload for the same identity with an invalid city. -/
def badCityIn : AssistantIn :=
  { tg_user_id := some 42
    tg_username := none
    name := "Alina"
    city := "bad-city"
    phone := "+7 999 111 22 33"
    exp := "3"
    rate := some "500"
    about := none
    availability_dates := some ["2024-05-01"] }

/-- A concrete employer payload. -/
def wEmployerIn : EmployerIn :=
  { tg_user_id := some 7
    tg_username := none
    clinic := "Smile"
    city := "Москва"
    phone := "+7 999 111 22 33"
    about := none }

/-- A payload whose `tg_user_id` is `0` and whose handle is absent. -/
def zeroIdIn : AssistantIn :=
  { tg_user_id := some 0
    tg_username := none
    name := "Zed"
    city := "Москва"
    phone := "+7 999 111 22 33"
    exp := "0"
    rate := none
    about := none
    availability_dates := none }

end DentalApp

/-! ## Helper lemmas -/

namespace DentalApp

theorem isPySpace_not_digit {c : Char} (h : isPySpace c = true) : c.isDigit = false := by
  simp only [isPySpace, Bool.or_eq_true, beq_iff_eq] at h
  rcases h with ((((h | h) | h) | h) | h) | h <;> subst h <;> decide

theorem isPySpace_ne_plus {c : Char} (h : isPySpace c = true) : (c != '+') = true := by
  simp only [isPySpace, Bool.or_eq_true, beq_iff_eq] at h
  rcases h with ((((h | h) | h) | h) | h) | h <;> subst h <;> decide

theorem dropWhile_append_of_all {α : Type} {p : α → Bool} {a : List α}
    (h : ∀ c ∈ a, p c = true) (y : List α) :
    (a ++ y).dropWhile p = y.dropWhile p := by
  induction a with
  | nil => rfl
  | cons c cs ih =>
    rw [List.cons_append, List.dropWhile_cons, if_pos (h c (List.mem_cons_self c cs))]
    exact ih (fun x hx => h x (List.mem_cons_of_mem c hx))

theorem stripChars_append_ws_left {a x : List Char}
    (h : ∀ c ∈ a, isPySpace c = true) :
    stripChars (a ++ x) = stripChars x := by
  unfold stripChars
  rw [dropWhile_append_of_all h]

theorem stripChars_append_ws_right {x b : List Char}
    (h : ∀ c ∈ b, isPySpace c = true) :
    stripChars (x ++ b) = stripChars x := by
  unfold stripChars
  rcases hx : x.dropWhile isPySpace with _ | ⟨c, cs⟩
  · have hxall : ∀ c ∈ x, isPySpace c = true := List.dropWhile_eq_nil_iff.mp hx
    have hall : (x ++ b).dropWhile isPySpace = [] := by
      refine List.dropWhile_eq_nil_iff.mpr ?_
      intro y hy
      rcases List.mem_append.mp hy with h1 | h1
      · exact hxall y h1
      · exact h y h1
    rw [hall]
  · rw [List.dropWhile_append, hx]
    simp only [List.isEmpty_cons, Bool.false_eq_true, if_false]
    rw [List.reverse_append]
    rw [dropWhile_append_of_all (fun y hy => h y (List.mem_reverse.mp hy))]

theorem stripChars_ws_wrap {a x b : List Char}
    (ha : ∀ c ∈ a, isPySpace c = true) (hb : ∀ c ∈ b, isPySpace c = true) :
    stripChars (a ++ x ++ b) = stripChars x := by
  rw [List.append_assoc, stripChars_append_ws_left ha,
      stripChars_append_ws_right hb]

theorem stripChars_decomp (l : List Char) :
    ∃ a b, (∀ c ∈ a, isPySpace c = true) ∧ (∀ c ∈ b, isPySpace c = true) ∧
      l = a ++ stripChars l ++ b := by
  refine ⟨l.takeWhile isPySpace,
    ((l.dropWhile isPySpace).reverse.takeWhile isPySpace).reverse, ?_, ?_, ?_⟩
  · intro c hc; exact List.mem_takeWhile_imp hc
  · intro c hc; exact List.mem_takeWhile_imp (List.mem_reverse.mp hc)
  · conv_lhs => rw [← List.takeWhile_append_dropWhile isPySpace l]
    rw [List.append_assoc]
    congr 1
    conv_lhs => rw [← List.reverse_reverse (l.dropWhile isPySpace)]
    conv_lhs =>
      rw [← List.takeWhile_append_dropWhile isPySpace (l.dropWhile isPySpace).reverse]
    rw [List.reverse_append]
    unfold stripChars
    rfl

theorem filter_stripChars_of_ws_false {p : Char → Bool}
    (hp : ∀ c, isPySpace c = true → p c = false) (l : List Char) :
    (stripChars l).filter p = l.filter p := by
  obtain ⟨a, b, ha, hb, hl⟩ := stripChars_decomp l
  conv_rhs => rw [hl]
  rw [List.filter_append, List.filter_append]
  have h1 : a.filter p = [] :=
    List.filter_eq_nil_iff.mpr (fun c hc => by rw [hp c (ha c hc)]; exact Bool.false_ne_true)
  have h2 : b.filter p = [] :=
    List.filter_eq_nil_iff.mpr (fun c hc => by rw [hp c (hb c hc)]; exact Bool.false_ne_true)
  rw [h1, h2, List.nil_append, List.append_nil]

theorem stripChars_filter_ne_plus_comm (l : List Char) :
    stripChars ((stripChars l).filter (fun c => c != '+')) =
      stripChars (l.filter (fun c => c != '+')) := by
  obtain ⟨a, b, ha, hb, hl⟩ := stripChars_decomp l
  conv_rhs => rw [hl]
  rw [List.filter_append, List.filter_append,
      List.filter_eq_self.mpr (fun c hc => isPySpace_ne_plus (ha c hc)),
      List.filter_eq_self.mpr (fun c hc => isPySpace_ne_plus (hb c hc))]
  exact (stripChars_ws_wrap ha hb).symm

theorem char_eq_of_toNat_eq {c d : Char} (h : c.toNat = d.toNat) : c = d := by
  have h2 : c.val = d.val := by
    have hx := h
    unfold Char.toNat UInt32.toNat at hx
    exact UInt32.eq_of_val_eq (Fin.ext hx)
  exact Char.ext h2

theorem charListLt_iff (l₁ l₂ : List Char) : charListLt l₁ l₂ = true ↔ l₁ < l₂ := by
  induction l₁ generalizing l₂ with
  | nil =>
    cases l₂ with
    | nil =>
      simp only [charListLt, Bool.false_eq_true, false_iff]
      intro h; cases h
    | cons d ds =>
      simp only [charListLt, true_iff]
      exact List.Lex.nil
  | cons c cs ih =>
    cases l₂ with
    | nil =>
      simp only [charListLt, Bool.false_eq_true, false_iff]
      intro h; cases h
    | cons d ds =>
      unfold charListLt
      by_cases h1 : c.toNat < d.toNat
      · rw [if_pos h1]
        simp only [true_iff]
        exact List.Lex.rel h1
      · rw [if_neg h1]
        by_cases h2 : d.toNat < c.toNat
        · rw [if_pos h2]
          simp only [Bool.false_eq_true, false_iff]
          intro h
          cases h with
          | rel hlt => exact h1 hlt
          | cons _ => exact Nat.lt_irrefl _ h2
        · rw [if_neg h2]
          rw [ih ds]
          have hcd : c = d :=
            char_eq_of_toNat_eq (Nat.le_antisymm (Nat.le_of_not_lt h2) (Nat.le_of_not_lt h1))
          subst hcd
          constructor
          · intro h; exact List.Lex.cons h
          · intro h
            cases h with
            | rel hlt => exact absurd hlt h1
            | cons htl => exact htl

theorem strLt_iff (a b : String) : strLt a b = true ↔ a < b := by
  rw [String.lt_iff_toList_lt]
  exact charListLt_iff a.data b.data

end DentalApp

namespace DentalApp

theorem mem_insertStr {z x : String} {l : List String} :
    z ∈ insertStr x l ↔ z = x ∨ z ∈ l := by
  induction l with
  | nil => simp [insertStr]
  | cons y ys ih =>
    unfold insertStr
    by_cases h1 : strLt x y
    · rw [if_pos h1]
      simp [List.mem_cons]
    · rw [if_neg h1]
      by_cases h2 : (x == y) = true
      · rw [if_pos h2]
        have hxy : x = y := beq_iff_eq.mp h2
        subst hxy
        simp [List.mem_cons]
      · rw [if_neg h2]
        simp only [List.mem_cons, ih]
        tauto

theorem pairwise_insertStr {x : String} {l : List String}
    (h : l.Pairwise (· < ·)) : (insertStr x l).Pairwise (· < ·) := by
  induction l with
  | nil => simp [insertStr]
  | cons y ys ih =>
    rw [List.pairwise_cons] at h
    obtain ⟨hy, hys⟩ := h
    unfold insertStr
    by_cases h1 : strLt x y
    · rw [if_pos h1]
      have hxy : x < y := (strLt_iff x y).mp h1
      refine List.Pairwise.cons ?_ (List.Pairwise.cons hy hys)
      intro z hz
      rcases List.mem_cons.mp hz with rfl | hz
      · exact hxy
      · exact lt_trans hxy (hy z hz)
    · rw [if_neg h1]
      by_cases h2 : (x == y) = true
      · rw [if_pos h2]
        exact List.Pairwise.cons hy hys
      · rw [if_neg h2]
        have hne : x ≠ y := fun hc => h2 (by rw [hc]; exact beq_self_eq_true y)
        have hyx : y < x := by
          have h1' : ¬ x < y := fun hc => h1 ((strLt_iff x y).mpr hc)
          exact lt_of_le_of_ne (le_of_not_lt h1') (fun hc => hne hc.symm)
        refine List.Pairwise.cons ?_ (ih hys)
        intro z hz
        rcases mem_insertStr.mp hz with rfl | hz
        · exact hyx
        · exact hy z hz

theorem pairwise_foldl_insertStr (l : List String) :
    ∀ acc : List String, acc.Pairwise (· < ·) →
      (l.foldl (fun acc d => insertStr d acc) acc).Pairwise (· < ·) := by
  induction l with
  | nil => intro acc h; exact h
  | cons d ds ih =>
    intro acc h
    exact ih _ (pairwise_insertStr h)

theorem mem_foldl_insertStr (l : List String) :
    ∀ (acc : List String) (z : String),
      z ∈ l.foldl (fun acc d => insertStr d acc) acc ↔ z ∈ acc ∨ z ∈ l := by
  induction l with
  | nil => intro acc z; simp
  | cons d ds ih =>
    intro acc z
    rw [List.foldl_cons, ih, mem_insertStr, List.mem_cons]
    tauto

theorem sortedDedup_pairwise (l : List String) :
    (sortedDedup l).Pairwise (· < ·) :=
  pairwise_foldl_insertStr l [] List.Pairwise.nil

theorem mem_sortedDedup {l : List String} {z : String} :
    z ∈ sortedDedup l ↔ z ∈ l := by
  unfold sortedDedup
  rw [mem_foldl_insertStr]
  simp

end DentalApp

namespace DentalApp

theorem normalize_phone_digit_count (s : String) :
    ((stripChars s.data).filter (fun c => c.isDigit || c == '+')).filter Char.isDigit
      = s.data.filter Char.isDigit := by
  rw [List.filter_filter]
  have hcongr : ∀ c ∈ stripChars s.data,
      (Char.isDigit c && (c.isDigit || c == '+')) = Char.isDigit c := by
    intro c _
    cases hc : c.isDigit <;> simp [hc]
  rw [List.filter_congr hcongr]
  exact filter_stripChars_of_ws_false (fun c hc => isPySpace_not_digit hc) s.data

theorem normalize_phone_eq (s : String) :
    normalize_phone s =
      if (s.data.filter Char.isDigit).length < 10 then none
      else some (String.mk ((stripChars s.data).filter (fun c => c.isDigit || c == '+'))) := by
  show (if (((stripChars s.data).filter (fun c => c.isDigit || c == '+')).filter
            Char.isDigit).length < 10 then none
        else some (String.mk ((stripChars s.data).filter (fun c => c.isDigit || c == '+')))) = _
  rw [normalize_phone_digit_count]

theorem isPySpace_keep_false {c : Char} (h : isPySpace c = true) :
    (c.isDigit || c == '+') = false := by
  rw [isPySpace_not_digit h]
  have h2 := isPySpace_ne_plus h
  rw [bne] at h2
  rw [Bool.not_eq_true'] at h2
  rw [h2]
  rfl

/-- The string `normalize_phone` returns on success is exactly the input
with every character other than a digit or `'+'` deleted: stripping only
removes whitespace, which is neither. -/
theorem normalize_phone_kept_chars (s : String) :
    (stripChars s.data).filter (fun c => c.isDigit || c == '+')
      = s.data.filter (fun c => c.isDigit || c == '+') :=
  filter_stripChars_of_ws_false (fun _ hc => isPySpace_keep_false hc) s.data

/-- C1 (amended): an input with fewer than 10 digits is rejected; an input
with at least 10 digits is accepted, and the returned string is exactly
the input with every character other than a digit or `'+'` removed — so
it consists only of digits and `'+'` characters, every `'+'` of the input
is kept at its position (not only a single leading one), and it carries
exactly the digits of the input. -/
theorem normalize_phone_spec (s : String) :
    ((s.data.filter Char.isDigit).length < 10 → normalize_phone s = none) ∧
    (10 ≤ (s.data.filter Char.isDigit).length →
      ∃ t, normalize_phone s = some t ∧
        t.data = s.data.filter (fun c => c.isDigit || c == '+') ∧
        (∀ c ∈ t.data, c.isDigit = true ∨ c = '+') ∧
        t.data.filter Char.isDigit = s.data.filter Char.isDigit) := by
  constructor
  · intro h
    rw [normalize_phone_eq, if_pos h]
  · intro h
    rw [normalize_phone_eq, if_neg (not_lt.mpr h)]
    refine ⟨_, rfl, normalize_phone_kept_chars s, ?_, ?_⟩
    · intro c hc
      have hmem := @List.of_mem_filter Char (fun c => c.isDigit || c == '+') c _ hc
      rw [Bool.or_eq_true] at hmem
      rcases hmem with h1 | h1
      · exact Or.inl h1
      · exact Or.inr (beq_iff_eq.mp h1)
    · exact normalize_phone_digit_count s

/-- C1 witness: a 3-digit input is rejected. -/
theorem normalize_phone_spec_witness : normalize_phone "123" = none :=
  (normalize_phone_spec "123").1 (by decide)

/-- C1 counterexample: on input `"1234567890+"` (10 digits, trailing
`'+'`) the code succeeds and returns the `'+'` in non-leading position,
contradicting "at most one leading `'+'` (no `'+'` in any other
position)". -/
theorem normalize_phone_plus_cex :
    normalize_phone "1234567890+" = some "1234567890+" ∧
    specPhoneShape "1234567890+" = false := by decide

/-- C4 (amended): `validate_dates` strips each entry before checking it;
it fails exactly when some *stripped* entry does not match
`YYYY-MM-DD`, performs no semantic calendar validation (`"2024-13-99"`
passes), and on success returns the strictly ascending duplicate-free
sorted set of the stripped entries. -/
theorem validate_dates_spec (dates : Option (List String)) :
    (validate_dates dates = none ↔
      ¬ ((dates.getD []).map pyStrip).all matchDate = true) ∧
    (∀ out, validate_dates dates = some out →
      out.Pairwise (· < ·) ∧ ∀ x, x ∈ out ↔ x ∈ (dates.getD []).map pyStrip) ∧
    validate_dates (some ["2024-13-99"]) = some ["2024-13-99"] := by
  refine ⟨?_, ?_, by decide⟩
  · unfold validate_dates
    by_cases hall : ((dates.getD []).map pyStrip).all matchDate = true
    · simp [hall]
    · simp [hall]
  · intro out hout
    unfold validate_dates at hout
    by_cases hall : ((dates.getD []).map pyStrip).all matchDate = true
    · rw [if_pos hall] at hout
      injection hout with hout
      subst hout
      exact ⟨sortedDedup_pairwise _, fun x => mem_sortedDedup⟩
    · rw [if_neg hall] at hout
      exact absurd hout (by simp)

/-- C4 witness: two unsorted entries come back sorted strictly
ascending. -/
theorem validate_dates_spec_witness :
    List.Pairwise (fun a b : String => a < b) ["2024-05-01", "2024-05-02"] :=
  ((validate_dates_spec (some ["2024-05-02", "2024-05-01"])).2.1
    ["2024-05-01", "2024-05-02"] (by decide)).1

/-- C4 counterexample: the entry `" 2024-01-01"` does not match the
pattern, yet `validate_dates` succeeds (entries are stripped first),
contradicting "fails if any entry does not match the pattern". -/
theorem validate_dates_strip_cex :
    matchDate " 2024-01-01" = false ∧
    validate_dates (some [" 2024-01-01"]) = some ["2024-01-01"] := by decide

/-- C5 (amended): `exp_to_int` removes every `'+'` (anywhere in the
string, not only a trailing marker) and then parses the remainder with
Python `int` semantics, defaulting to `0` on failure: the result is a
function of the input with all `'+'` characters deleted. -/
theorem exp_to_int_removes_every_plus (s : String) :
    exp_to_int s = (pyInt (String.mk (s.data.filter (fun c => c != '+')))).getD 0 := by
  show (pySignedDigits (stripChars ((stripChars s.data).filter (fun c => c != '+')))).getD 0 =
    (pySignedDigits (stripChars (s.data.filter (fun c => c != '+')))).getD 0
  rw [stripChars_filter_ne_plus_comm]

/-- C5 counterexample: on `"1+2"` the code removes the interior `'+'` and
parses `12`, while the spec's wording (strip only a trailing `'+'`, then
parse, default `0`) would give `0`. -/
theorem exp_to_int_plus_cex :
    exp_to_int "1+2" = 12 ∧ exp_to_int_spec_version "1+2" = 0 := by decide

end DentalApp

namespace DentalApp

theorem updateFirst_append_of_none {α : Type} {pred : α → Bool} {f : α → α}
    {l₁ : List α} (h : ∀ x ∈ l₁, ¬ pred x = true) (r : α) (hr : pred r = true)
    (l₂ : List α) :
    updateFirst pred f (l₁ ++ r :: l₂) = l₁ ++ f r :: l₂ := by
  induction l₁ with
  | nil => simp [updateFirst, hr]
  | cons a as ih =>
    rw [List.cons_append]
    unfold updateFirst
    rw [if_neg (h a (List.mem_cons_self a as))]
    rw [ih (fun x hx => h x (List.mem_cons_of_mem a hx))]
    rfl

theorem map_updateFirst_of_find? {α β : Type} {pred : α → Bool} {f : α → α}
    {l : List α} {obj : α} (g : α → β) (hf : l.find? pred = some obj)
    (h : g (f obj) = g obj) :
    (updateFirst pred f l).map g = l.map g := by
  induction l with
  | nil => cases hf
  | cons a as ih =>
    unfold updateFirst
    by_cases hp : pred a = true
    · rw [if_pos hp]
      rw [List.find?_cons_of_pos _ hp] at hf
      injection hf with hf
      subst hf
      simp [h]
    · rw [if_neg hp]
      rw [List.find?_cons_of_neg _ hp] at hf
      simp [ih hf]

/-- The row `upsert_assistant` updates in place is exactly the row the
identity lookup found. -/
theorem lookup_find?_pred {recs : List Assistant} {p : AssistantIn} {obj : Assistant}
    (hlk : lookupAssistant recs p = some obj) :
    recs.find?
      (if truthyI p.tg_user_id ∧
          (recs.find? (fun a => a.tg_user_id == p.tg_user_id)).isSome
       then (fun a => a.tg_user_id == p.tg_user_id)
       else (fun a => a.tg_username == p.tg_username)) = some obj := by
  unfold lookupAssistant at hlk
  by_cases hI : truthyI p.tg_user_id = true
  · rw [if_pos hI] at hlk
    cases hfind : recs.find? (fun a => a.tg_user_id == p.tg_user_id) with
    | some a =>
      rw [hfind] at hlk
      have h2 : some a = some obj := hlk
      rw [if_pos ⟨hI, rfl⟩, hfind]
      exact h2
    | none =>
      rw [hfind] at hlk
      have h2 : (if truthyS p.tg_username = true
          then recs.find? (fun a => a.tg_username == p.tg_username) else none) = some obj := hlk
      by_cases hS : truthyS p.tg_username = true
      · rw [if_pos hS] at h2
        rw [if_neg (by simp)]
        exact h2
      · rw [if_neg hS] at h2
        cases h2
  · rw [if_neg hI] at hlk
    have h2 : (if truthyS p.tg_username = true
        then recs.find? (fun a => a.tg_username == p.tg_username) else none) = some obj := hlk
    by_cases hS : truthyS p.tg_username = true
    · rw [if_pos hS] at h2
      rw [if_neg (fun hc => hI hc.1)]
      exact h2
    · rw [if_neg hS] at h2
      cases h2

/-- Equation for the update path of `upsert_assistant`. -/
theorem upsert_assistant_update_eq (st : AStore) (p : AssistantIn) (now : Nat)
    {ph ci : String} {da : List String} {obj : Assistant}
    (hph : normalize_phone p.phone = some ph)
    (hci : validate_city p.city = some ci)
    (hda : validate_dates p.availability_dates = some da)
    (hlk : lookupAssistant st.records p = some obj) :
    upsert_assistant st p now =
      Except.ok
        ({ st with records := (updateFirst
              (if truthyI p.tg_user_id ∧
                  (st.records.find? (fun a => a.tg_user_id == p.tg_user_id)).isSome
               then (fun a => a.tg_user_id == p.tg_user_id)
               else (fun a => a.tg_username == p.tg_username))
              (fun _ => updateAssistant obj p ph ci da) st.records) },
          updateAssistant obj p ph ci da) := by
  simp only [upsert_assistant, hph, hci, hda, hlk]

/-- Equation for the create path of `upsert_assistant`. -/
theorem upsert_assistant_create_eq (st : AStore) (p : AssistantIn) (now : Nat)
    {ph ci : String} {da : List String}
    (hph : normalize_phone p.phone = some ph)
    (hci : validate_city p.city = some ci)
    (hda : validate_dates p.availability_dates = some da)
    (hlk : lookupAssistant st.records p = none) :
    upsert_assistant st p now =
      Except.ok
        ({ records := st.records ++ [newAssistant p ph ci da st.nextId now],
           nextId := st.nextId + 1 },
         newAssistant p ph ci da st.nextId now) := by
  simp only [upsert_assistant, hph, hci, hda, hlk]

end DentalApp

namespace DentalApp

/-- C9: an upsert call either leaves the stored ratings unchanged (update
or failure) or appends a single new record with rating 5 (creation); no
payload ever modifies an existing rating. -/
theorem upsert_rating_invariant (st : AStore) (p : AssistantIn) (now : Nat) :
    (upsertAssistantState st p now).records.map Assistant.rating
        = st.records.map Assistant.rating ∨
    (upsertAssistantState st p now).records.map Assistant.rating
        = st.records.map Assistant.rating ++ [5] := by
  unfold upsertAssistantState
  cases hph : normalize_phone p.phone with
  | none => left; simp only [upsert_assistant, hph]
  | some ph =>
    cases hci : validate_city p.city with
    | none => left; simp only [upsert_assistant, hph, hci]
    | some ci =>
      cases hda : validate_dates p.availability_dates with
      | none => left; simp only [upsert_assistant, hph, hci, hda]
      | some da =>
        cases hlk : lookupAssistant st.records p with
        | none =>
          right
          rw [upsert_assistant_create_eq st p now hph hci hda hlk]
          simp [newAssistant]
        | some obj =>
          left
          rw [upsert_assistant_update_eq st p now hph hci hda hlk]
          exact map_updateFirst_of_find? Assistant.rating (lookup_find?_pred hlk) rfl

/-- C8: every validation failure (invalid phone, city or date) is raised
before any write: the call returns the corresponding error and the stored
state — for assistants and employers alike — is completely unchanged. -/
theorem upsert_validation_failure_no_write (ast : AStore) (est : EStore)
    (p : AssistantIn) (q : EmployerIn) (now : Nat) :
    (normalize_phone p.phone = none →
      upsert_assistant ast p now = Except.error UpsertError.invalidPhone ∧
      upsertAssistantState ast p now = ast) ∧
    (validate_city p.city = none →
      (∃ e, upsert_assistant ast p now = Except.error e) ∧
      upsertAssistantState ast p now = ast) ∧
    (validate_dates p.availability_dates = none →
      (∃ e, upsert_assistant ast p now = Except.error e) ∧
      upsertAssistantState ast p now = ast) ∧
    (normalize_phone q.phone = none →
      upsert_employer est q now = Except.error UpsertError.invalidPhone ∧
      upsertEmployerState est q now = est) ∧
    (validate_city q.city = none →
      (∃ e, upsert_employer est q now = Except.error e) ∧
      upsertEmployerState est q now = est) := by
  refine ⟨?_, ?_, ?_, ?_, ?_⟩
  · intro h
    have he : upsert_assistant ast p now = Except.error UpsertError.invalidPhone := by
      simp only [upsert_assistant, h]
    exact ⟨he, by unfold upsertAssistantState; rw [he]⟩
  · intro h
    cases hph : normalize_phone p.phone with
    | none =>
      have he : upsert_assistant ast p now = Except.error UpsertError.invalidPhone := by
        simp only [upsert_assistant, hph]
      exact ⟨⟨_, he⟩, by unfold upsertAssistantState; rw [he]⟩
    | some ph =>
      have he : upsert_assistant ast p now = Except.error UpsertError.invalidCity := by
        simp only [upsert_assistant, hph, h]
      exact ⟨⟨_, he⟩, by unfold upsertAssistantState; rw [he]⟩
  · intro h
    cases hph : normalize_phone p.phone with
    | none =>
      have he : upsert_assistant ast p now = Except.error UpsertError.invalidPhone := by
        simp only [upsert_assistant, hph]
      exact ⟨⟨_, he⟩, by unfold upsertAssistantState; rw [he]⟩
    | some ph =>
      cases hci : validate_city p.city with
      | none =>
        have he : upsert_assistant ast p now = Except.error UpsertError.invalidCity := by
          simp only [upsert_assistant, hph, hci]
        exact ⟨⟨_, he⟩, by unfold upsertAssistantState; rw [he]⟩
      | some ci =>
        have he : upsert_assistant ast p now = Except.error UpsertError.invalidDate := by
          simp only [upsert_assistant, hph, hci, h]
        exact ⟨⟨_, he⟩, by unfold upsertAssistantState; rw [he]⟩
  · intro h
    have he : upsert_employer est q now = Except.error UpsertError.invalidPhone := by
      simp only [upsert_employer, h]
    exact ⟨he, by unfold upsertEmployerState; rw [he]⟩
  · intro h
    cases hph : normalize_phone q.phone with
    | none =>
      have he : upsert_employer est q now = Except.error UpsertError.invalidPhone := by
        simp only [upsert_employer, hph]
      exact ⟨⟨_, he⟩, by unfold upsertEmployerState; rw [he]⟩
    | some ph =>
      have he : upsert_employer est q now = Except.error UpsertError.invalidCity := by
        simp only [upsert_employer, hph, h]
      exact ⟨⟨_, he⟩, by unfold upsertEmployerState; rw [he]⟩

/-- C8 witness: a second upsert for the stored identity 42 with city
`"bad-city"` fails and leaves the store — including the stored city
`"Москва"` — unchanged. -/
theorem upsert_validation_failure_no_write_witness :
    upsertAssistantState ⟨[storedMoscow], 2⟩ badCityIn 5 = ⟨[storedMoscow], 2⟩ :=
  ((upsert_validation_failure_no_write ⟨[storedMoscow], 2⟩ ⟨[], 1⟩
    badCityIn wEmployerIn 5).2.1 (by decide)).2

/-- Equation for the create path of `upsert_employer`. -/
theorem upsert_employer_create_eq (st : EStore) (q : EmployerIn) (now : Nat)
    {ph ci : String}
    (hph : normalize_phone q.phone = some ph)
    (hci : validate_city q.city = some ci)
    (hlk : lookupEmployer st.records q = none) :
    upsert_employer st q now =
      Except.ok
        ({ records := st.records ++ [newEmployer q ph ci st.nextId now],
           nextId := st.nextId + 1 },
         newEmployer q ph ci st.nextId now) := by
  simp only [upsert_employer, hph, hci, hlk]

/-- C10: a payload with `tg_user_id = 0` and no handle never matches any
stored record — both the assistant and the employer upsert take the
create path on every store — and the get-profile lookup skips a
`tg_user_id = 0` key and an empty-string handle key entirely. -/
theorem zero_external_id_is_absent (st : AStore) (p : AssistantIn) (now : Nat)
    (est : EStore) (q : EmployerIn) (enow : Nat)
    {ph ci : String} {da : List String} {eph eci : String}
    (h0 : p.tg_user_id = some 0) (hh : p.tg_username = none)
    (hph : normalize_phone p.phone = some ph)
    (hci : validate_city p.city = some ci)
    (hda : validate_dates p.availability_dates = some da)
    (h0e : q.tg_user_id = some 0) (hhe : q.tg_username = none)
    (heph : normalize_phone q.phone = some eph)
    (heci : validate_city q.city = some eci) :
    upsert_assistant st p now =
      Except.ok
        ({ records := st.records ++ [newAssistant p ph ci da st.nextId now],
           nextId := st.nextId + 1 },
         newAssistant p ph ci da st.nextId now) ∧
    upsert_employer est q enow =
      Except.ok
        ({ records := est.records ++ [newEmployer q eph eci est.nextId enow],
           nextId := est.nextId + 1 },
         newEmployer q eph eci est.nextId enow) ∧
    (∀ (recs : List Assistant) (u : Option String),
      get_my_assistant recs (some 0) u = get_my_assistant recs none u) ∧
    (∀ (recs : List Assistant) (i : Option Int),
      get_my_assistant recs i (some "") = get_my_assistant recs i none) := by
  refine ⟨?_, ?_, ?_, ?_⟩
  · have hlk : lookupAssistant st.records p = none := by
      unfold lookupAssistant
      rw [h0, hh]
      simp [truthyI, truthyS]
    exact upsert_assistant_create_eq st p now hph hci hda hlk
  · have hlk : lookupEmployer est.records q = none := by
      unfold lookupEmployer
      rw [h0e, hhe]
      simp [truthyI, truthyS]
    exact upsert_employer_create_eq est q enow heph heci hlk
  · intro recs u
    unfold get_my_assistant
    simp [truthyI]
  · intro recs i
    unfold get_my_assistant
    simp [truthyS]

/-- C10 witness: upserting with `tg_user_id = 0` into the empty stores
creates a fresh assistant record and a fresh employer record. -/
theorem zero_external_id_is_absent_witness :
    upsert_assistant ⟨[], 1⟩ zeroIdIn 0 =
      Except.ok (⟨[newAssistant zeroIdIn "+79991112233" "Москва" [] 1 0], 2⟩,
        newAssistant zeroIdIn "+79991112233" "Москва" [] 1 0) ∧
    upsert_employer ⟨[], 1⟩ ⟨some 0, none, "Smile", "Москва", "+7 999 111 22 33", none⟩ 0 =
      Except.ok
        (⟨[newEmployer ⟨some 0, none, "Smile", "Москва", "+7 999 111 22 33", none⟩
            "+79991112233" "Москва" 1 0], 2⟩,
         newEmployer ⟨some 0, none, "Smile", "Москва", "+7 999 111 22 33", none⟩
            "+79991112233" "Москва" 1 0) := by
  have h := @zero_external_id_is_absent ⟨[], 1⟩ zeroIdIn 0
    ⟨[], 1⟩ ⟨some 0, none, "Smile", "Москва", "+7 999 111 22 33", none⟩ 0
    "+79991112233" "Москва" [] "+79991112233" "Москва"
    rfl rfl (by decide) (by decide) (by decide)
    rfl rfl (by decide) (by decide)
  exact ⟨h.1, h.2.1⟩

end DentalApp

namespace DentalApp

/-- C6: with `rate_max` active the listing is exactly the same listing
without the rate filter, restricted to records whose stored rate is
present and parses to an integer at most the threshold (absent or
unparseable rates are excluded); concretely, rates `[400, 600, None]`
with `rate_max = 500` return only the 400 record. -/
theorem list_assistants_rate_max (recs : List Assistant) (city date : Option String)
    (exp_min : Option Int) (rm : Int) :
    list_assistants recs city date exp_min (some rm) =
      (list_assistants recs city date exp_min none).filter
        (fun a => match rate_to_int a.rate with
          | some r => decide (r ≤ rm)
          | none => false) ∧
    list_assistants [rateAsst 0 (some "400"), rateAsst 1 (some "600"), rateAsst 2 none]
        none none none (some 500) = [rateAsst 0 (some "400")] := by
  constructor
  · have hA : ∀ (items : List Assistant) (e : Option Int),
        applyExpRate items e (some rm) =
          (applyExpRate items e none).filter
            (fun a => match rate_to_int a.rate with
              | some r => decide (r ≤ rm)
              | none => false) := by
      intro items e
      cases e <;> rfl
    have hL : ∀ base : List Assistant,
        listAfterCity base date exp_min (some rm) =
          (listAfterCity base date exp_min none).filter
            (fun a => match rate_to_int a.rate with
              | some r => decide (r ≤ rm)
              | none => false) := by
      intro base
      unfold listAfterCity
      by_cases h1 : truthyS date = true
      · rw [if_pos h1, if_pos h1]
        by_cases h2 : matchDate (pyStrip (date.getD "")) = true
        · rw [if_pos h2, if_pos h2]
          exact hA _ _
        · rw [if_neg h2, if_neg h2]
          rfl
      · rw [if_neg h1, if_neg h1]
        exact hA _ _
    unfold list_assistants
    by_cases h1 : truthyS city = true
    · rw [if_pos h1, if_pos h1]
      by_cases h2 : ALLOWED_CITIES.contains (pyStrip (city.getD "")) = true
      · rw [if_pos h2, if_pos h2]
        exact hL _
      · rw [if_neg h2, if_neg h2]
        rfl
    · rw [if_neg h1, if_neg h1]
      exact hL _
  · decide

end DentalApp

namespace DentalApp

/-- C7: with a present (truthy) identity, valid fields, and a store in
which that identity matches no record, the first upsert creates exactly
one record carrying the validated payload, and repeating the identical
call is a no-op: it resolves to that record, overwrites it with the same
values, and returns the same store and record.  (With an absent identity
the code creates a new row per call — see the C10 theorem — so a present
identity is assumed.) -/
theorem upsert_assistant_idempotent (st : AStore) (p : AssistantIn) (now now2 : Nat)
    {ph ci : String} {da : List String}
    (hph : normalize_phone p.phone = some ph)
    (hci : validate_city p.city = some ci)
    (hda : validate_dates p.availability_dates = some da)
    (hid : truthyI p.tg_user_id = true ∨ truthyS p.tg_username = true)
    (hfresh : ∀ x ∈ st.records,
      (truthyI p.tg_user_id = true → x.tg_user_id ≠ p.tg_user_id) ∧
      (truthyS p.tg_username = true → x.tg_username ≠ p.tg_username)) :
    ∃ a st1,
      upsert_assistant st p now = Except.ok (st1, a) ∧
      st1.records = st.records ++ [a] ∧
      upsert_assistant st1 p now2 = Except.ok (st1, a) ∧
      st1.records.countP (fun x =>
          (truthyI p.tg_user_id && x.tg_user_id == p.tg_user_id) ||
          (truthyS p.tg_username && x.tg_username == p.tg_username)) = 1 ∧
      a.phone = ph ∧ a.city = ci ∧ a.availability_dates = da ∧
      a.name = pyStrip p.name ∧ a.exp = pyStrip p.exp ∧
      a.rate = strippedOrNone p.rate ∧ a.about = strippedOrNone p.about ∧
      a.rating = 5 := by
  have hidn : (if truthyI p.tg_user_id = true
      then st.records.find? (fun x => x.tg_user_id == p.tg_user_id) else none) = none := by
    by_cases hI : truthyI p.tg_user_id = true
    · rw [if_pos hI]
      exact List.find?_eq_none.mpr (fun x hx => by
        simp only [beq_iff_eq]
        exact (hfresh x hx).1 hI)
    · rw [if_neg hI]
  have hlk1 : lookupAssistant st.records p = none := by
    unfold lookupAssistant
    rw [hidn]
    show (if truthyS p.tg_username = true
        then st.records.find? (fun x => x.tg_username == p.tg_username) else none) = none
    by_cases hS : truthyS p.tg_username = true
    · rw [if_pos hS]
      exact List.find?_eq_none.mpr (fun x hx => by
        simp only [beq_iff_eq]
        exact (hfresh x hx).2 hS)
    · rw [if_neg hS]
  refine ⟨newAssistant p ph ci da st.nextId now,
    ⟨st.records ++ [newAssistant p ph ci da st.nextId now], st.nextId + 1⟩,
    upsert_assistant_create_eq st p now hph hci hda hlk1, rfl, ?_, ?_,
    rfl, rfl, rfl, rfl, rfl, rfl, rfl, rfl⟩
  · -- the second call is a no-op
    have hupd : updateAssistant (newAssistant p ph ci da st.nextId now) p ph ci da
        = newAssistant p ph ci da st.nextId now := by
      simp [updateAssistant, newAssistant, pyOrI, pyOrS, ite_self]
    by_cases hI : truthyI p.tg_user_id = true
    · have hf : (st.records ++ [newAssistant p ph ci da st.nextId now]).find?
          (fun x => x.tg_user_id == p.tg_user_id)
          = some (newAssistant p ph ci da st.nextId now) := by
        rw [List.find?_append]
        have h1 : st.records.find? (fun x => x.tg_user_id == p.tg_user_id) = none := by
          have := hidn
          rw [if_pos hI] at this
          exact this
        rw [h1]
        simp [newAssistant]
      have hlk2 : lookupAssistant
          (st.records ++ [newAssistant p ph ci da st.nextId now]) p
          = some (newAssistant p ph ci da st.nextId now) := by
        unfold lookupAssistant
        rw [if_pos hI, hf]
      have he2 := upsert_assistant_update_eq
        ⟨st.records ++ [newAssistant p ph ci da st.nextId now], st.nextId + 1⟩
        p now2 hph hci hda hlk2
      rw [he2, hupd]
      dsimp only
      rw [if_pos ⟨hI, by rw [hf]; rfl⟩]
      rw [updateFirst_append_of_none
        (fun x hx => by
          simp only [beq_iff_eq]
          exact (hfresh x hx).1 hI)
        (newAssistant p ph ci da st.nextId now)
        (by simp [newAssistant]) []]
    · have hS : truthyS p.tg_username = true := hid.resolve_left hI
      have hf : (st.records ++ [newAssistant p ph ci da st.nextId now]).find?
          (fun x => x.tg_username == p.tg_username)
          = some (newAssistant p ph ci da st.nextId now) := by
        rw [List.find?_append]
        have h1 : st.records.find? (fun x => x.tg_username == p.tg_username) = none :=
          List.find?_eq_none.mpr (fun x hx => by
            simp only [beq_iff_eq]
            exact (hfresh x hx).2 hS)
        rw [h1]
        simp [newAssistant]
      have hlk2 : lookupAssistant
          (st.records ++ [newAssistant p ph ci da st.nextId now]) p
          = some (newAssistant p ph ci da st.nextId now) := by
        unfold lookupAssistant
        rw [if_neg hI]
        show (if truthyS p.tg_username = true
            then (st.records ++ [newAssistant p ph ci da st.nextId now]).find?
              (fun x => x.tg_username == p.tg_username)
            else none) = some (newAssistant p ph ci da st.nextId now)
        rw [if_pos hS, hf]
      have he2 := upsert_assistant_update_eq
        ⟨st.records ++ [newAssistant p ph ci da st.nextId now], st.nextId + 1⟩
        p now2 hph hci hda hlk2
      rw [he2, hupd]
      dsimp only
      rw [if_neg (fun hc => hI hc.1)]
      rw [updateFirst_append_of_none
        (fun x hx => by
          simp only [beq_iff_eq]
          exact (hfresh x hx).2 hS)
        (newAssistant p ph ci da st.nextId now)
        (by simp [newAssistant]) []]
  · -- exactly one record matches the identity
    rw [List.countP_append]
    have h0 : st.records.countP (fun x =>
        (truthyI p.tg_user_id && x.tg_user_id == p.tg_user_id) ||
        (truthyS p.tg_username && x.tg_username == p.tg_username)) = 0 := by
      rw [List.countP_eq_zero]
      intro x hx hfx
      rw [Bool.or_eq_true, Bool.and_eq_true, Bool.and_eq_true] at hfx
      rcases hfx with ⟨hI, hbeq⟩ | ⟨hS, hbeq⟩
      · exact (hfresh x hx).1 hI (beq_iff_eq.mp hbeq)
      · exact (hfresh x hx).2 hS (beq_iff_eq.mp hbeq)
    have h1 : List.countP (fun x =>
        (truthyI p.tg_user_id && x.tg_user_id == p.tg_user_id) ||
        (truthyS p.tg_username && x.tg_username == p.tg_username))
        [newAssistant p ph ci da st.nextId now] = 1 := by
      rcases hid with hI | hS
      · simp [newAssistant, hI]
      · simp [newAssistant, hS]
    rw [h0, h1]

/-- C7 witness: the concrete example payload, upserted twice into the
empty store, converges after the first call. -/
theorem upsert_assistant_idempotent_witness :
    ∃ a st1,
      upsert_assistant ⟨[], 1⟩ wAssistantIn 100 = Except.ok (st1, a) ∧
      st1.records = [] ++ [a] ∧
      upsert_assistant st1 wAssistantIn 101 = Except.ok (st1, a) ∧
      st1.records.countP (fun x =>
          (truthyI wAssistantIn.tg_user_id && x.tg_user_id == wAssistantIn.tg_user_id) ||
          (truthyS wAssistantIn.tg_username && x.tg_username == wAssistantIn.tg_username)) = 1 ∧
      a.phone = "+79991112233" ∧ a.city = "Москва" ∧
      a.availability_dates = ["2024-05-01", "2024-05-02"] ∧
      a.name = pyStrip wAssistantIn.name ∧ a.exp = pyStrip wAssistantIn.exp ∧
      a.rate = strippedOrNone wAssistantIn.rate ∧
      a.about = strippedOrNone wAssistantIn.about ∧
      a.rating = 5 :=
  upsert_assistant_idempotent ⟨[], 1⟩ wAssistantIn 100 101
    (by decide) (by decide) (by decide) (Or.inl (by decide))
    (fun x hx => absurd hx (List.not_mem_nil x))

end DentalApp

namespace DentalApp

theorem applyExpRate_sublist (items : List Assistant) (e r : Option Int) :
    (applyExpRate items e r).Sublist items := by
  unfold applyExpRate
  cases e with
  | none =>
    cases r with
    | none => exact List.Sublist.refl _
    | some rm => exact List.filter_sublist _
  | some em =>
    cases r with
    | none => exact List.filter_sublist _
    | some rm => exact (List.filter_sublist _).trans (List.filter_sublist _)

/-- C3: on a store with more than 500 assistants of pairwise distinct
ratings, the unfiltered listing returns exactly 500 records in strictly
descending rating order; the cap is applied before the date / experience
/ rate filters, so every filtered call returns a subsequence of that
capped ordered window (hence is never re-sorted). -/
theorem list_assistants_cap_and_order (recs : List Assistant)
    (hN : 500 < recs.length)
    (hdist : (recs.map Assistant.rating).Nodup) :
    (list_assistants recs none none none none).length = 500 ∧
    (list_assistants recs none none none none).Pairwise
      (fun a b => b.rating < a.rating) ∧
    ∀ (date : Option String) (exp_min rate_max : Option Int),
      (list_assistants recs none date exp_min rate_max).Sublist
        (list_assistants recs none none none none) := by
  have hbase : list_assistants recs none none none none
      = (sortAssistants recs).take 500 := rfl
  have hperm : (sortAssistants recs).Perm recs := List.perm_insertionSort listLE recs
  refine ⟨?_, ?_, ?_⟩
  · rw [hbase, List.length_take, hperm.length_eq]
    exact min_eq_left (Nat.le_of_lt hN)
  · rw [hbase]
    have hsorted : (sortAssistants recs).Sorted listLE :=
      List.sorted_insertionSort listLE recs
    have hsub : ((sortAssistants recs).take 500).Sublist (sortAssistants recs) :=
      List.take_sublist _ _
    have hp1 : ((sortAssistants recs).take 500).Pairwise listLE :=
      List.Pairwise.sublist hsub hsorted
    have hnd : ((sortAssistants recs).map Assistant.rating).Nodup :=
      ((hperm.map Assistant.rating).nodup_iff).mpr hdist
    have hnd2 : (((sortAssistants recs).take 500).map Assistant.rating).Nodup :=
      List.Nodup.sublist (List.Sublist.map Assistant.rating hsub) hnd
    have hpne : ((sortAssistants recs).take 500).Pairwise
        (fun a b => a.rating ≠ b.rating) := List.pairwise_map.mp hnd2
    refine (hp1.and hpne).imp ?_
    intro a b h
    rcases h.1 with hlt | ⟨heq, _⟩
    · exact hlt
    · exact absurd heq.symm h.2
  · intro date e r
    rw [hbase]
    show (listAfterCity recs date e r).Sublist ((sortAssistants recs).take 500)
    unfold listAfterCity
    by_cases h1 : truthyS date = true
    · rw [if_pos h1]
      by_cases h2 : matchDate (pyStrip (date.getD "")) = true
      · rw [if_pos h2]
        exact (applyExpRate_sublist _ _ _).trans (List.filter_sublist _)
      · rw [if_neg h2]
        exact List.nil_sublist _
    · rw [if_neg h1]
      exact applyExpRate_sublist _ _ _

/-- C3 witness: a concrete store of 501 distinctly-rated assistants is
capped to exactly 500. -/
theorem list_assistants_cap_and_order_witness :
    (list_assistants windowStore none none none none).length = 500 :=
  (list_assistants_cap_and_order windowStore
    (by rw [windowStore, List.length_map, List.length_range]; norm_num)
    (by
      have hmap : windowStore.map Assistant.rating
          = (List.range 501).map (Nat.cast : Nat → Int) := by
        rw [windowStore, List.map_map]
        have hfun : Assistant.rating ∘ windowAssistant = (Nat.cast : Nat → Int) := rfl
        rw [hfun]
      rw [hmap]
      exact List.Nodup.map Nat.cast_injective (List.nodup_range 501))).1

end DentalApp

namespace DentalApp

/-- Equation for the update path of `upsert_employer`. -/
theorem upsert_employer_update_eq (st : EStore) (q : EmployerIn) (now : Nat)
    {ph ci : String} {obj : Employer}
    (hph : normalize_phone q.phone = some ph)
    (hci : validate_city q.city = some ci)
    (hlk : lookupEmployer st.records q = some obj) :
    upsert_employer st q now =
      Except.ok
        ({ st with records := (updateFirst
              (if truthyI q.tg_user_id ∧
                  (st.records.find? (fun e => e.tg_user_id == q.tg_user_id)).isSome
               then (fun e => e.tg_user_id == q.tg_user_id)
               else (fun e => e.tg_username == q.tg_username))
              (fun _ => updateEmployer obj q ph ci) st.records) },
          updateEmployer obj q ph ci) := by
  simp only [upsert_employer, hph, hci, hlk]

/-- C2: identity resolution looks the record up by `tg_user_id` first
(when truthy); the handle lookup runs only when the id lookup finds
nothing; and on update the stored `tg_user_id` / `tg_username` are
overwritten only by truthy incoming values, so a call without an
identity field never erases a previously recorded one.  Both the
assistant and employer endpoints behave this way. -/
theorem upsert_identity_resolution
    (recs₁ recs₂ : List Assistant) (r : Assistant) (nid now : Nat) (p : AssistantIn)
    {ph ci : String} {da : List String}
    (hph : normalize_phone p.phone = some ph)
    (hci : validate_city p.city = some ci)
    (hda : validate_dates p.availability_dates = some da)
    (ercs₁ ercs₂ : List Employer) (er : Employer) (enid enow : Nat) (q : EmployerIn)
    {eph eci : String}
    (heph : normalize_phone q.phone = some eph)
    (heci : validate_city q.city = some eci) :
    (truthyI p.tg_user_id = true → r.tg_user_id = p.tg_user_id →
      (∀ x ∈ recs₁, x.tg_user_id ≠ p.tg_user_id) →
      upsert_assistant ⟨recs₁ ++ r :: recs₂, nid⟩ p now =
        Except.ok (⟨recs₁ ++ updateAssistant r p ph ci da :: recs₂, nid⟩,
          updateAssistant r p ph ci da)) ∧
    ((truthyI p.tg_user_id = true → ∀ x ∈ recs₁ ++ r :: recs₂, x.tg_user_id ≠ p.tg_user_id) →
      truthyS p.tg_username = true → r.tg_username = p.tg_username →
      (∀ x ∈ recs₁, x.tg_username ≠ p.tg_username) →
      upsert_assistant ⟨recs₁ ++ r :: recs₂, nid⟩ p now =
        Except.ok (⟨recs₁ ++ updateAssistant r p ph ci da :: recs₂, nid⟩,
          updateAssistant r p ph ci da)) ∧
    ((updateAssistant r p ph ci da).tg_user_id
        = (if truthyI p.tg_user_id = true then p.tg_user_id else r.tg_user_id)) ∧
    ((updateAssistant r p ph ci da).tg_username
        = (if truthyS p.tg_username = true then p.tg_username else r.tg_username)) ∧
    (truthyI q.tg_user_id = true → er.tg_user_id = q.tg_user_id →
      (∀ x ∈ ercs₁, x.tg_user_id ≠ q.tg_user_id) →
      upsert_employer ⟨ercs₁ ++ er :: ercs₂, enid⟩ q enow =
        Except.ok (⟨ercs₁ ++ updateEmployer er q eph eci :: ercs₂, enid⟩,
          updateEmployer er q eph eci)) ∧
    ((truthyI q.tg_user_id = true → ∀ x ∈ ercs₁ ++ er :: ercs₂, x.tg_user_id ≠ q.tg_user_id) →
      truthyS q.tg_username = true → er.tg_username = q.tg_username →
      (∀ x ∈ ercs₁, x.tg_username ≠ q.tg_username) →
      upsert_employer ⟨ercs₁ ++ er :: ercs₂, enid⟩ q enow =
        Except.ok (⟨ercs₁ ++ updateEmployer er q eph eci :: ercs₂, enid⟩,
          updateEmployer er q eph eci)) ∧
    ((updateEmployer er q eph eci).tg_user_id
        = (if truthyI q.tg_user_id = true then q.tg_user_id else er.tg_user_id)) ∧
    ((updateEmployer er q eph eci).tg_username
        = (if truthyS q.tg_username = true then q.tg_username else er.tg_username)) := by
  refine ⟨?_, ?_, rfl, rfl, ?_, ?_, rfl, rfl⟩
  · intro hI hr hn
    have hfind : (recs₁ ++ r :: recs₂).find? (fun x => x.tg_user_id == p.tg_user_id)
        = some r := by
      rw [List.find?_append,
        List.find?_eq_none.mpr (fun x hx => by
          simp only [beq_iff_eq]; exact hn x hx),
        Option.none_or]
      exact List.find?_cons_of_pos _ (by simp [hr])
    have hlk : lookupAssistant (recs₁ ++ r :: recs₂) p = some r := by
      unfold lookupAssistant
      rw [if_pos hI, hfind]
    have he := upsert_assistant_update_eq ⟨recs₁ ++ r :: recs₂, nid⟩ p now hph hci hda hlk
    rw [he]
    dsimp only
    rw [if_pos ⟨hI, by rw [hfind]; rfl⟩]
    rw [updateFirst_append_of_none
      (fun x hx => by simp only [beq_iff_eq]; exact hn x hx) r (by simp [hr]) recs₂]
  · intro hNo hS hrU hnU
    have hidn : (if truthyI p.tg_user_id = true
        then (recs₁ ++ r :: recs₂).find? (fun x => x.tg_user_id == p.tg_user_id)
        else none) = none := by
      by_cases hI : truthyI p.tg_user_id = true
      · rw [if_pos hI]
        exact List.find?_eq_none.mpr (fun x hx => by
          simp only [beq_iff_eq]; exact hNo hI x hx)
      · rw [if_neg hI]
    have hfindU : (recs₁ ++ r :: recs₂).find? (fun x => x.tg_username == p.tg_username)
        = some r := by
      rw [List.find?_append,
        List.find?_eq_none.mpr (fun x hx => by
          simp only [beq_iff_eq]; exact hnU x hx),
        Option.none_or]
      exact List.find?_cons_of_pos _ (by simp [hrU])
    have hlk : lookupAssistant (recs₁ ++ r :: recs₂) p = some r := by
      unfold lookupAssistant
      rw [hidn]
      show (if truthyS p.tg_username = true
          then (recs₁ ++ r :: recs₂).find? (fun x => x.tg_username == p.tg_username)
          else none) = some r
      rw [if_pos hS, hfindU]
    have he := upsert_assistant_update_eq ⟨recs₁ ++ r :: recs₂, nid⟩ p now hph hci hda hlk
    rw [he]
    dsimp only
    have hcond : ¬ (truthyI p.tg_user_id = true ∧
        ((recs₁ ++ r :: recs₂).find? (fun a => a.tg_user_id == p.tg_user_id)).isSome
          = true) := by
      intro hc
      have h3 := hidn
      rw [if_pos hc.1] at h3
      rw [h3] at hc
      exact absurd hc.2 (by simp)
    rw [if_neg hcond]
    rw [updateFirst_append_of_none
      (fun x hx => by simp only [beq_iff_eq]; exact hnU x hx) r (by simp [hrU]) recs₂]
  · intro hI hr hn
    have hfind : (ercs₁ ++ er :: ercs₂).find? (fun x => x.tg_user_id == q.tg_user_id)
        = some er := by
      rw [List.find?_append,
        List.find?_eq_none.mpr (fun x hx => by
          simp only [beq_iff_eq]; exact hn x hx),
        Option.none_or]
      exact List.find?_cons_of_pos _ (by simp [hr])
    have hlk : lookupEmployer (ercs₁ ++ er :: ercs₂) q = some er := by
      unfold lookupEmployer
      rw [if_pos hI, hfind]
    have he := upsert_employer_update_eq ⟨ercs₁ ++ er :: ercs₂, enid⟩ q enow heph heci hlk
    rw [he]
    dsimp only
    rw [if_pos ⟨hI, by rw [hfind]; rfl⟩]
    rw [updateFirst_append_of_none
      (fun x hx => by simp only [beq_iff_eq]; exact hn x hx) er (by simp [hr]) ercs₂]
  · intro hNo hS hrU hnU
    have hidn : (if truthyI q.tg_user_id = true
        then (ercs₁ ++ er :: ercs₂).find? (fun x => x.tg_user_id == q.tg_user_id)
        else none) = none := by
      by_cases hI : truthyI q.tg_user_id = true
      · rw [if_pos hI]
        exact List.find?_eq_none.mpr (fun x hx => by
          simp only [beq_iff_eq]; exact hNo hI x hx)
      · rw [if_neg hI]
    have hfindU : (ercs₁ ++ er :: ercs₂).find? (fun x => x.tg_username == q.tg_username)
        = some er := by
      rw [List.find?_append,
        List.find?_eq_none.mpr (fun x hx => by
          simp only [beq_iff_eq]; exact hnU x hx),
        Option.none_or]
      exact List.find?_cons_of_pos _ (by simp [hrU])
    have hlk : lookupEmployer (ercs₁ ++ er :: ercs₂) q = some er := by
      unfold lookupEmployer
      rw [hidn]
      show (if truthyS q.tg_username = true
          then (ercs₁ ++ er :: ercs₂).find? (fun x => x.tg_username == q.tg_username)
          else none) = some er
      rw [if_pos hS, hfindU]
    have he := upsert_employer_update_eq ⟨ercs₁ ++ er :: ercs₂, enid⟩ q enow heph heci hlk
    rw [he]
    dsimp only
    have hcond : ¬ (truthyI q.tg_user_id = true ∧
        ((ercs₁ ++ er :: ercs₂).find? (fun e => e.tg_user_id == q.tg_user_id)).isSome
          = true) := by
      intro hc
      have h3 := hidn
      rw [if_pos hc.1] at h3
      rw [h3] at hc
      exact absurd hc.2 (by simp)
    rw [if_neg hcond]
    rw [updateFirst_append_of_none
      (fun x hx => by simp only [beq_iff_eq]; exact hnU x hx) er (by simp [hrU]) ercs₂]

/-- C2 witness: with a non-truthy incoming `tg_username`, the update
leaves the stored handle untouched (and the truthy `tg_user_id` is
written through). -/
theorem upsert_identity_resolution_witness :
    (updateAssistant storedMoscow wAssistantIn "+79991112233" "Москва"
        ["2024-05-01", "2024-05-02"]).tg_username = storedMoscow.tg_username ∧
    (updateAssistant storedMoscow wAssistantIn "+79991112233" "Москва"
        ["2024-05-01", "2024-05-02"]).tg_user_id = wAssistantIn.tg_user_id := by
  have h := @upsert_identity_resolution [] [] storedMoscow 2 5 wAssistantIn
    "+79991112233" "Москва" ["2024-05-01", "2024-05-02"]
    (by decide) (by decide) (by decide)
    [] [] ⟨1, some 7, none, "Smile", "Москва", "+79991112233", none, 5, 0⟩ 1 0 wEmployerIn
    "+79991112233" "Москва"
    (by decide) (by decide)
  constructor
  · rw [h.2.2.2.1]
    decide
  · rw [h.2.2.1]
    decide

end DentalApp
